import Mathlib

/-!
Verification of the dispatch and policy engine of the `bins` command-line
paste tool, shallowly embedded from `src/main.rs`.

Machine integers (`u64`) are modelled as `Nat` (no overflow occurs for the
quantities involved), Rust `Result`/`Option` as `Except String`/`Option`,
and the `f64` arithmetic of the size-limit parser as exact rational
arithmetic (`Rat`), which agrees with `f64` on every value exercised here.
File-system and network effects are modelled as explicit function
parameters so that claims about evaluation order become independence
statements.
-/

namespace Bins

/-- Decidable equality for `Except`, so that concrete runs of the embedded
functions can be checked by `decide`. -/
instance {ε α : Type} [DecidableEq ε] [DecidableEq α] : DecidableEq (Except ε α) := fun a b =>
  match a, b with
  | .ok x, .ok y => if h : x = y then .isTrue (by rw [h]) else .isFalse (by simp [h])
  | .error x, .error y => if h : x = y then .isTrue (by rw [h]) else .isFalse (by simp [h])
  | .ok _, .error _ => .isFalse (by simp)
  | .error _, .ok _ => .isFalse (by simp)

/-! ## SizeLimit parser (`Bins::file_size_limit`, main.rs lines 326-360) -/

/-- Character class `"0123456789."` used by the scanner (main.rs line 334). -/
def isDigitChar (c : Char) : Bool :=
  c == '0' || c == '1' || c == '2' || c == '3' || c == '4' ||
  c == '5' || c == '6' || c == '7' || c == '8' || c == '9'

/-- Membership in `"0123456789."`. -/
def isDigitDotChar (c : Char) : Bool :=
  isDigitChar c || c == '.'

/-- Membership in `"bBkKmMgGiI"` (main.rs line 339). -/
def isUnitChar (c : Char) : Bool :=
  c == 'b' || c == 'B' || c == 'k' || c == 'K' || c == 'm' ||
  c == 'M' || c == 'g' || c == 'G' || c == 'i' || c == 'I'

/-- Model of `str::trim`: drop whitespace from both ends. -/
def trimChars (cs : List Char) : List Char :=
  ((cs.dropWhile Char.isWhitespace).reverse.dropWhile Char.isWhitespace).reverse

/-- Error message used throughout `file_size_limit`. -/
def invalidLimitMsg : String := "the file size limit specified in the config is invalid"

/-- The scanning loop of `file_size_limit` (main.rs lines 333-342): digit or
dot characters accumulate into `size` unless a unit character has already
accumulated (then the limit is invalid); characters of `"bBkKmMgGiI"`
accumulate into `unit`; every other character is skipped. -/
def scanLimit : List Char → List Char → List Char → Except String (List Char × List Char)
  | [], size, unit => .ok (size, unit)
  | c :: cs, size, unit =>
    if isDigitDotChar c then
      if unit.isEmpty then scanLimit cs (size ++ [c]) unit
      else .error invalidLimitMsg
    else if isUnitChar c then scanLimit cs size (unit ++ [c])
    else scanLimit cs size unit

/-- Digits folded into a natural number, as decimal. -/
def digitsVal (cs : List Char) : Nat :=
  cs.foldl (fun n c => 10 * n + (c.toNat - 48)) 0

/-- Model of `str::parse::<f64>` restricted to strings of digits and dots
(the only characters the scanner puts in `size`): succeeds exactly when at
least one digit and at most one dot are present. The value is kept exact as
a numerator/denominator pair `(n, 10 ^ k)` where `k` is the number of
fractional digits, so that the parsed number is `n / 10 ^ k`. -/
def parseNum (cs : List Char) : Option (Nat × Nat) :=
  if cs.any isDigitChar = false then none
  else if 1 < (cs.filter (fun c => c == '.')).length then none
  else
    let intPart := cs.takeWhile (fun c => c != '.')
    let fracPart := (cs.dropWhile (fun c => c != '.')).drop 1
    some (digitsVal (intPart ++ fracPart), 10 ^ fracPart.length)

/-- The exact rational value denoted by a `parseNum` result. -/
def ratVal (n d : Nat) : Rat := (n : Rat) / (d : Rat)

/-- ASCII lowercasing of the unit characters (`str::to_lowercase` on a
string drawn from `"bBkKmMgGiI"`). -/
def lowerChar (c : Char) : Char :=
  if c == 'B' then 'b' else if c == 'K' then 'k' else if c == 'M' then 'm'
  else if c == 'G' then 'g' else if c == 'I' then 'i' else c

/-- The unit multiplier table (main.rs lines 345-358). -/
def unitMultiplier (u : String) : Except String Nat :=
  if u = "" then .ok 1
  else if u = "b" then .ok 1
  else if u = "kb" then .ok (10 ^ 3)
  else if u = "kib" then .ok (2 ^ 10)
  else if u = "mb" then .ok (10 ^ 6)
  else if u = "mib" then .ok (2 ^ 20)
  else if u = "gb" then .ok (10 ^ 9)
  else if u = "gib" then .ok (2 ^ 30)
  else .error invalidLimitMsg

/-- Model of `f64::round` (round half away from zero) on exact rationals. -/
def rustRound (q : Rat) : Int :=
  if 0 ≤ q then ⌊q + 1 / 2⌋ else -⌊-q + 1 / 2⌋

/-- The byte count `round((n / d) * m)` computed exactly with natural-number
division: for `0 < d`, `(2 * (n * m) + d) / (2 * d) = ⌊n * m / d + 1 / 2⌋`. -/
def roundedBytes (n d m : Nat) : Nat := (2 * (n * m) + d) / (2 * d)

/-- `Bins::file_size_limit` (main.rs lines 326-360): `none` configured limit
means unlimited; otherwise scan, parse the numeric portion, look up the
lowercased unit, and round the product. -/
def file_size_limit (cfgLimit : Option String) : Except String (Option Nat) :=
  match cfgLimit with
  | none => .ok none
  | some s =>
    match scanLimit (trimChars s.toList) [] [] with
    | .error e => .error e
    | .ok (size, unit) =>
      match parseNum size with
      | none => .error invalidLimitMsg
      | some (n, d) =>
        match unitMultiplier (String.mk (unit.map lowerChar)) with
        | .error e => .error e
        | .ok m => .ok (some (roundedBytes n d m))

/-- The natural-number rounding used by `file_size_limit` computes exactly
`round(value * multiplier)` on the rational value `n / d`. -/
theorem roundedBytes_eq_rustRound (n d m : Nat) (hd : 0 < d) :
    roundedBytes n d m = (rustRound (ratVal n d * (m : Rat))).toNat := by
  have hq : (0 : Rat) ≤ ratVal n d * (m : Rat) := by
    unfold ratVal; positivity
  have hdQ : ((d : Rat)) ≠ 0 := Nat.cast_ne_zero.mpr hd.ne'
  rw [rustRound, if_pos hq]
  have hrw : ratVal n d * (m : Rat) + 1 / 2 =
      ((2 * (n * m) + d : Nat) : Rat) / ((2 * d : Nat) : Rat) := by
    unfold ratVal
    push_cast
    field_simp
    ring
  rw [hrw, Int.floor_toNat, Rat.natFloor_natCast_div_natCast, roundedBytes]

/-- The digit-or-dot character class and the unit character class are
disjoint. -/
theorem isUnitChar_not_digitDot (c : Char) (h : isUnitChar c = true) :
    isDigitDotChar c = false := by
  simp only [isUnitChar, Bool.or_eq_true, beq_iff_eq] at h
  rcases h with ((((((((h | h) | h) | h) | h) | h) | h) | h) | h) | h <;> subst h <;> rfl

/-- Once a unit character has accumulated, any later digit or dot character
makes the scan fail. -/
theorem scanLimit_error_of_digit (cs : List Char) : ∀ size unit : List Char,
    unit.isEmpty = false → cs.any isDigitDotChar = true →
    scanLimit cs size unit = .error invalidLimitMsg := by
  induction cs with
  | nil => intro size unit _ hany; simp at hany
  | cons c cs ih =>
    intro size unit hunit hany
    simp only [scanLimit]
    by_cases hc : isDigitDotChar c = true
    · rw [if_pos hc, if_neg (by simp [hunit])]
    · rw [if_neg (by simp [hc])]
      have hany2 : cs.any isDigitDotChar = true := by
        simp only [List.any_cons, Bool.or_eq_true] at hany
        rcases hany with h | h
        · exact absurd h hc
        · exact h
      by_cases hu : isUnitChar c = true
      · rw [if_pos hu]
        exact ih size (unit ++ [c]) (by simp) hany2
      · rw [if_neg (by simp [hu])]
        exact ih size unit hunit hany2

/-- A digit or dot character to the right of any unit character makes the
scan fail, whatever the accumulators hold. -/
theorem scanLimit_error_digit_after_unit (l1 : List Char) :
    ∀ (u : Char) (l2 size unit : List Char),
    isUnitChar u = true → l2.any isDigitDotChar = true →
    scanLimit (l1 ++ u :: l2) size unit = .error invalidLimitMsg := by
  induction l1 with
  | nil =>
    intro u l2 size unit hu hany
    simp only [List.nil_append, scanLimit]
    rw [if_neg (by simp [isUnitChar_not_digitDot u hu]), if_pos hu]
    exact scanLimit_error_of_digit l2 size (unit ++ [u]) (by simp) hany
  | cons c l1 ih =>
    intro u l2 size unit hu hany
    simp only [List.cons_append, scanLimit]
    by_cases hc : isDigitDotChar c = true
    · rw [if_pos hc]
      by_cases hemp : unit.isEmpty
      · rw [if_pos hemp]
        exact ih u l2 (size ++ [c]) unit hu hany
      · rw [if_neg hemp]
    · rw [if_neg (by simp [hc])]
      by_cases hcu : isUnitChar c = true
      · rw [if_pos hcu]
        exact scanLimit_error_of_digit (l1 ++ u :: l2) size (unit ++ [c]) (by simp)
          (by simp only [List.any_append, List.any_cons, Bool.or_eq_true]; right; right; exact hany)
      · rw [if_neg (by simp [hcu])]
        exact ih u l2 size unit hu hany

/-- A successful scan accumulates exactly the digit and dot characters of
the input, in order, into the numeric portion. -/
theorem scanLimit_ok_size (cs : List Char) : ∀ size unit s2 u2 : List Char,
    scanLimit cs size unit = .ok (s2, u2) → s2 = size ++ cs.filter isDigitDotChar := by
  induction cs with
  | nil =>
    intro size unit s2 u2 h
    simp only [scanLimit, Except.ok.injEq, Prod.mk.injEq] at h
    simp [← h.1]
  | cons c cs ih =>
    intro size unit s2 u2 h
    simp only [scanLimit] at h
    by_cases hc : isDigitDotChar c = true
    · rw [if_pos hc] at h
      by_cases hemp : unit.isEmpty
      · rw [if_pos hemp] at h
        have := ih (size ++ [c]) unit s2 u2 h
        simp [this, List.filter_cons, hc]
      · rw [if_neg hemp] at h
        exact absurd h (by simp)
    · rw [if_neg (by simp [hc])] at h
      by_cases hcu : isUnitChar c = true
      · rw [if_pos hcu] at h
        have := ih size (unit ++ [c]) s2 u2 h
        simp [this, List.filter_cons, hc]
      · rw [if_neg (by simp [hcu])] at h
        have := ih size unit s2 u2 h
        simp [this, List.filter_cons, hc]

/-- `unitMultiplier` rejects every string outside its eight-entry table. -/
theorem unitMultiplier_error (u : String)
    (h0 : u ≠ "") (h1 : u ≠ "b") (h2 : u ≠ "kb") (h3 : u ≠ "kib") (h4 : u ≠ "mb")
    (h5 : u ≠ "mib") (h6 : u ≠ "gb") (h7 : u ≠ "gib") :
    unitMultiplier u = .error invalidLimitMsg := by
  simp [unitMultiplier, h0, h1, h2, h3, h4, h5, h6, h7]

/-- If the input has no digit at all, the numeric portion cannot parse. -/
theorem parseNum_none_of_no_digit (cs : List Char) (h : cs.any isDigitChar = false) :
    parseNum cs = none := by
  simp [parseNum, h]

/-- The denominator produced by `parseNum` is a positive power of ten. -/
theorem parseNum_den_pos (cs : List Char) (n d : Nat) (h : parseNum cs = some (n, d)) :
    0 < d := by
  unfold parseNum at h
  by_cases h1 : cs.any isDigitChar = false
  · rw [if_pos h1] at h; exact absurd h (by simp)
  · rw [if_neg h1] at h
    by_cases h2 : 1 < (cs.filter (fun c => c == '.')).length
    · rw [if_pos h2] at h; exact absurd h (by simp)
    · rw [if_neg h2] at h
      simp only [Option.some.injEq, Prod.mk.injEq] at h
      rw [← h.2]
      positivity

/-- The scanner only ever fails with the invalid-limit message. -/
theorem scanLimit_error_msg (cs : List Char) : ∀ size unit : List Char, ∀ e : String,
    scanLimit cs size unit = .error e → e = invalidLimitMsg := by
  induction cs with
  | nil => intro size unit e h; simp [scanLimit] at h
  | cons c cs ih =>
    intro size unit e h
    simp only [scanLimit] at h
    by_cases hc : isDigitDotChar c = true
    · rw [if_pos hc] at h
      by_cases hemp : unit.isEmpty
      · rw [if_pos hemp] at h; exact ih _ _ _ h
      · rw [if_neg hemp] at h
        simpa using h.symm
    · rw [if_neg (by simp [hc])] at h
      by_cases hcu : isUnitChar c = true
      · rw [if_pos hcu] at h; exact ih _ _ _ h
      · rw [if_neg (by simp [hcu])] at h; exact ih _ _ _ h

/-- Filtering for digit-or-dot characters cannot produce a digit if the
input held none. -/
theorem filter_no_digit (cs : List Char) (h : cs.all (fun c => !isDigitChar c) = true) :
    (cs.filter isDigitDotChar).any isDigitChar = false := by
  simp only [List.all_eq_true, Bool.not_eq_true'] at h
  simp only [List.any_eq_false, List.mem_filter]
  intro x hx
  simp [h x hx.1]

/-- C3 The size-limit parser maps a numeric value followed by a unit to
round(value * multiplier) bytes, with multiplier 1 for no unit or "b",
10^3/10^6/10^9 for kb/mb/gb and 2^10/2^20/2^30 for kib/mib/gib
(case-insensitive); in particular parse("10mb") = 10000000,
parse("1kib") = 1024 and parse("1.5gb") = 1500000000. -/
theorem size_limit_parser_correct
    (s : String) (size unit : List Char) (n d m : Nat)
    (hscan : scanLimit (trimChars s.toList) [] [] = .ok (size, unit))
    (hnum : parseNum size = some (n, d))
    (hmul : unitMultiplier (String.mk (unit.map lowerChar)) = .ok m) :
    file_size_limit (some s) = .ok (some (rustRound (ratVal n d * (m : Rat))).toNat) ∧
    unitMultiplier "" = .ok 1 ∧ unitMultiplier "b" = .ok 1 ∧
    unitMultiplier "kb" = .ok (10 ^ 3) ∧ unitMultiplier "mb" = .ok (10 ^ 6) ∧
    unitMultiplier "gb" = .ok (10 ^ 9) ∧ unitMultiplier "kib" = .ok (2 ^ 10) ∧
    unitMultiplier "mib" = .ok (2 ^ 20) ∧ unitMultiplier "gib" = .ok (2 ^ 30) ∧
    file_size_limit (some "10mb") = .ok (some 10000000) ∧
    file_size_limit (some "10MB") = .ok (some 10000000) ∧
    file_size_limit (some "1kib") = .ok (some 1024) ∧
    file_size_limit (some "1.5gb") = .ok (some 1500000000) := by
  refine ⟨?_, by decide, by decide, by decide, by decide, by decide, by decide,
    by decide, by decide, by decide, by decide, by decide, by decide⟩
  simp only [file_size_limit, hscan, hnum, hmul]
  rw [roundedBytes_eq_rustRound n d m (parseNum_den_pos size n d hnum)]

/-- C3 witness: the theorem applied to the limit string "10mb". -/
theorem size_limit_parser_correct_witness :
    file_size_limit (some "10mb") =
      .ok (some (rustRound (ratVal 10 1 * ((1000000 : Nat) : Rat))).toNat) :=
  (size_limit_parser_correct "10mb" ['1', '0'] ['m', 'b'] 10 1 1000000
    (by decide) (by decide) (by decide)).1

/-- C4 counterexample: the claim asserts parse("10xx") fails, but the
scanner silently skips characters that are neither digits nor unit
characters, so "10xx" parses as 10 bytes. -/
theorem size_limit_10xx_parses : file_size_limit (some "10xx") = .ok (some 10) := by
  decide

/-- C4 (amended) The size-limit parser fails with a config error when the
numeric portion is empty (no digit at all), when a digit or dot appears
after a unit character has begun accumulating, and when the accumulated
unit characters form an unrecognized unit; characters outside the digit
and unit character classes are silently ignored, so parse("") fails while
parse("10xx") succeeds with 10 bytes. -/
theorem size_limit_rejects_malformed :
    (∀ s : String, (trimChars s.toList).all (fun c => !isDigitChar c) = true →
      file_size_limit (some s) = .error invalidLimitMsg) ∧
    (∀ (s : String) (l1 : List Char) (u : Char) (l2 : List Char),
      trimChars s.toList = l1 ++ u :: l2 → isUnitChar u = true →
      l2.any isDigitDotChar = true →
      file_size_limit (some s) = .error invalidLimitMsg) ∧
    (∀ (s : String) (size unit : List Char) (n d : Nat),
      scanLimit (trimChars s.toList) [] [] = .ok (size, unit) →
      parseNum size = some (n, d) →
      unitMultiplier (String.mk (unit.map lowerChar)) = .error invalidLimitMsg →
      file_size_limit (some s) = .error invalidLimitMsg) ∧
    file_size_limit (some "") = .error invalidLimitMsg ∧
    file_size_limit (some "10xx") = .ok (some 10) := by
  refine ⟨?_, ?_, ?_, by decide, by decide⟩
  · intro s h
    cases hscan : scanLimit (trimChars s.toList) [] [] with
    | error e =>
      have he := scanLimit_error_msg _ _ _ _ hscan
      subst he
      simp only [file_size_limit, hscan]
    | ok p =>
      obtain ⟨size, unit⟩ := p
      have hsize := scanLimit_ok_size _ _ _ _ _ hscan
      simp only [List.nil_append] at hsize
      have hpn : parseNum size = none :=
        parseNum_none_of_no_digit size (by rw [hsize]; exact filter_no_digit _ h)
      simp only [file_size_limit, hscan, hpn]
  · intro s l1 u l2 htrim hu hany
    have hscan : scanLimit (trimChars s.toList) [] [] = .error invalidLimitMsg := by
      rw [htrim]
      exact scanLimit_error_digit_after_unit l1 u l2 [] [] hu hany
    simp only [file_size_limit, hscan]
  · intro s size unit n d hscan hnum hmul
    simp only [file_size_limit, hscan, hnum, hmul]

/-- C4 witness: a digit after a unit character ("1b2") is rejected. -/
theorem size_limit_rejects_malformed_witness :
    file_size_limit (some "1b2") = .error invalidLimitMsg :=
  size_limit_rejects_malformed.2.1 "1b2" ['1'] 'b' ['2'] (by decide) (by decide) (by decide)

/-! ## File materializer (`Bins::download`, main.rs lines 596-625) -/

/-- Model of `str::split('.')`: every dot separates segments, so a leading
or trailing dot yields an empty segment, and the empty string yields one
empty segment. -/
def splitParts : List Char → List (List Char)
  | [] => [[]]
  | c :: cs =>
    if c == '.' then [] :: splitParts cs
    else
      match splitParts cs with
      | [] => [[c]]
      | p :: ps => (c :: p) :: ps

/-- Model of `Vec::join(".")` on character segments. -/
def joinDots : List (List Char) → List Char
  | [] => []
  | [p] => p
  | p :: ps => p ++ '.' :: joinDots ps

/-- The renamed file name for collision attempt `tries` (main.rs lines
606-613): split the original name on dots, append an underscore and the
counter to the segment before the final extension (segment 0 when there is
a single segment), and join back with dots. -/
def renamedName (name : String) (tries : Nat) : String :=
  let parts := splitParts name.toList
  let len := parts.length
  let index := if len = 1 then 0 else len - 2
  let newPart := parts.getD index [] ++ '_' :: (toString tries).toList
  String.mk (joinDots (parts.set index newPart))

/-- `Path::join` of a directory and a file name. -/
def joinPath (dir name : String) : String := dir ++ "/" ++ name

/-- The file name tried on attempt `t`: the original name for `t = 0`, the
renamed name with counter `t` afterwards. -/
def candidateName (name : String) : Nat → String
  | 0 => name
  | t + 1 => renamedName name (t + 1)

/-- The `while download_path.exists()` loop (main.rs lines 603-614). The
source loop is unbounded; `fuel` bounds the iterations here and `none`
models non-termination, which the source reaches only if every candidate
path exists. -/
def collisionLoop (pathExists : String → Bool) (dir name : String) :
    Nat → Nat → Option String
  | 0, _ => none
  | fuel + 1, tries =>
    let cur := joinPath dir (candidateName name tries)
    if pathExists cur then collisionLoop pathExists dir name fuel (tries + 1)
    else some cur

/-- The collision loop returns the first candidate whose path does not
exist. -/
theorem collisionLoop_spec (pathExists : String → Bool) (dir name : String) (k : Nat)
    (hk : pathExists (joinPath dir (candidateName name k)) = false)
    (hmin : ∀ j, j < k → pathExists (joinPath dir (candidateName name j)) = true) :
    ∀ fuel t : Nat, t ≤ k → k - t < fuel →
    collisionLoop pathExists dir name fuel t = some (joinPath dir (candidateName name k)) := by
  intro fuel
  induction fuel with
  | zero => intro t ht hf; omega
  | succ f ih =>
    intro t ht hf
    simp only [collisionLoop]
    by_cases hek : t = k
    · subst hek
      rw [hk]
      simp
    · have htk : t < k := lt_of_le_of_ne ht hek
      rw [hmin t htk]
      simp only [if_true]
      exact ih (t + 1) htk (by omega)

/-- C6 For every downloaded file written to an output directory, if the
destination path already exists the name is rewritten by inserting an
incrementing counter before the final extension segment (appended when
there is no extension), retrying with counters 1, 2, 3, ... until an
unused path is found, so no pre-existing file is overwritten; "a.txt"
collides to "a_1.txt" and extensionless "name" collides to "name_1". -/
theorem download_collision_renaming (pathExists : String → Bool) (dir name : String)
    (k fuel : Nat)
    (hk : pathExists (joinPath dir (candidateName name k)) = false)
    (hmin : ∀ j, j < k → pathExists (joinPath dir (candidateName name j)) = true)
    (hfuel : k < fuel) :
    collisionLoop pathExists dir name fuel 0 = some (joinPath dir (candidateName name k)) ∧
    pathExists (joinPath dir (candidateName name k)) = false ∧
    (∀ t : Nat, candidateName name (t + 1) = renamedName name (t + 1)) ∧
    renamedName "a.txt" 1 = "a_1.txt" ∧
    renamedName "name" 1 = "name_1" :=
  ⟨collisionLoop_spec pathExists dir name k hk hmin fuel 0 (Nat.zero_le k) (by omega),
    hk, fun _ => rfl, by decide, by decide⟩

/-- C6 witness: with only "out/a.txt" existing, the loop settles on
"out/a_1.txt". -/
theorem download_collision_renaming_witness :
    collisionLoop (fun s => s == "out/a.txt") "out" "a.txt" 2 0 = some "out/a_1.txt" :=
  ((download_collision_renaming (fun s => s == "out/a.txt") "out" "a.txt" 1 2
    (by decide) (by decide) (by decide)).1).trans (by decide)

/-! ## Startup flag checks (`inner`, main.rs lines 106-237) -/

/-- The early checks of `inner` after configuration and logging succeed
(main.rs lines 127-142): a version request prints the version and exits
successfully (`ok none`); `--bin` with `--list-bins` is an error; outside
list-bins mode, a missing bin name with no configured default is an error;
otherwise the invocation proceeds with the rest of the program, modelled by
the continuation `k` (upload, download or list output). -/
def innerRun (version listBins binPresent defaultBinPresent : Bool)
    (k : Except String String) : Except String (Option String) :=
  if version then .ok none
  else if listBins && binPresent then .error "--bin cannot be used with --list-bins"
  else if !listBins && !defaultBinPresent && !binPresent then
    .error "you must specify a bin with --bin or set a default bin"
  else k.map some

/-- C9 counterexample: a --version invocation is not a list-backends
request and has neither an explicit bin nor a default, yet it prints the
version and exits successfully instead of failing with the missing-bin
error, because the version check precedes the bin check. -/
theorem bin_required_version_counterexample :
    innerRun true false false false (.ok "") = .ok none ∧
    innerRun true false false false (.ok "") ≠
      .error "you must specify a bin with --bin or set a default bin" := by
  decide

/-- C9 (amended) Every invocation that is neither a list-backends request
nor a version request fails immediately with the missing-bin error when no
explicit backend name is given and no default backend is configured —
whatever the rest of the invocation (including a download) would have
done — while a list-backends request proceeds without a bin. -/
theorem bin_required_check :
    (∀ k : Except String String,
      innerRun false false false false k =
        .error "you must specify a bin with --bin or set a default bin") ∧
    (∀ k : Except String String, innerRun false true false false k = k.map some) := by
  constructor <;> intro k <;> rfl

/-! ## Backend registry and listing (main.rs lines 205-216 and 366-373) -/

/-- One `BTreeMap::insert` into a key-sorted association list: keys are
kept in ascending order and an equal key replaces the stored pair. -/
def btreeInsert {β : Type} (k : String) (v : β) : List (String × β) → List (String × β)
  | [] => [(k, v)]
  | (k2, v2) :: rest =>
    if k < k2 then (k, v) :: (k2, v2) :: rest
    else if k = k2 then (k, v) :: rest
    else (k2, v2) :: btreeInsert k v rest

/-- The backend registry `BTreeMap<String, Box<Bin>>` built by collecting
the backend vector keyed by name (main.rs lines 205-216). -/
def btreeFromList {β : Type} (l : List (String × β)) : List (String × β) :=
  l.foldl (fun m p => btreeInsert p.1 p.2 m) []

/-- Model of `serde_json::to_string` on the list of backend names: a JSON
array in list order. -/
def jsonArrayOfNames (names : List String) : String :=
  "[" ++ String.intercalate "," (names.map (fun n => "\"" ++ n ++ "\"")) ++ "]"

/-- `Bins::list_bins` (main.rs lines 366-373): JSON mode serializes the
registry's key list; any other output mode joins the keys with newlines. -/
def list_bins {β : Type} (jsonOpt : Option Bool) (registry : List (String × β)) : String :=
  match jsonOpt with
  | some true => jsonArrayOfNames (registry.map Prod.fst)
  | _ => String.intercalate "\n" (registry.map Prod.fst)

/-- Every key of `btreeInsert k v m` is `k` or a key of `m`. -/
theorem btreeInsert_keys {β : Type} (k : String) (v : β) (m : List (String × β)) :
    ∀ x ∈ (btreeInsert k v m).map Prod.fst, x = k ∨ x ∈ m.map Prod.fst := by
  induction m with
  | nil => intro x hx; simp [btreeInsert] at hx; left; exact hx
  | cons p rest ih =>
    obtain ⟨k2, v2⟩ := p
    intro x hx
    simp only [btreeInsert] at hx
    split_ifs at hx with h1 h2
    · simp only [List.map_cons, List.mem_cons] at hx ⊢
      tauto
    · simp only [List.map_cons, List.mem_cons] at hx ⊢
      tauto
    · simp only [List.map_cons, List.mem_cons] at hx ⊢
      rcases hx with h | h
      · tauto
      · rcases ih x h with h3 | h3 <;> tauto

/-- `btreeInsert` preserves strict ascending key order. -/
theorem btreeInsert_sorted {β : Type} (k : String) (v : β) (m : List (String × β))
    (hm : (m.map Prod.fst).Sorted (· < ·)) :
    ((btreeInsert k v m).map Prod.fst).Sorted (· < ·) := by
  induction m with
  | nil => simp [btreeInsert]
  | cons p rest ih =>
    obtain ⟨k2, v2⟩ := p
    simp only [List.map_cons, List.sorted_cons] at hm
    simp only [btreeInsert]
    split_ifs with h1 h2
    · simp only [List.map_cons, List.sorted_cons]
      exact ⟨fun b hb => by
        rcases List.mem_cons.mp hb with h | h
        · rw [h]; exact h1
        · exact h1.trans (hm.1 b h), hm⟩
    · subst h2
      simp only [List.map_cons, List.sorted_cons]
      exact hm
    · have hk2 : k2 < k := by
        rcases lt_trichotomy k k2 with h | h | h
        · exact absurd h h1
        · exact absurd h h2
        · exact h
      simp only [List.map_cons, List.sorted_cons]
      refine ⟨fun b hb => ?_, ih hm.2⟩
      rcases btreeInsert_keys k v rest b hb with h | h
      · rw [h]; exact hk2
      · exact hm.1 b h

/-- Folding `btreeInsert` over any list preserves sortedness of the keys. -/
theorem btreeFoldl_sorted {β : Type} (l : List (String × β)) :
    ∀ m : List (String × β), (m.map Prod.fst).Sorted (· < ·) →
    ((l.foldl (fun m p => btreeInsert p.1 p.2 m) m).map Prod.fst).Sorted (· < ·) := by
  induction l with
  | nil => intro m hm; simpa using hm
  | cons p l ih =>
    intro m hm
    exact ih (btreeInsert p.1 p.2 m) (btreeInsert_sorted p.1 p.2 m hm)

/-- The registry's keys are in strictly ascending lexicographic order. -/
theorem btreeFromList_sorted {β : Type} (l : List (String × β)) :
    ((btreeFromList l).map Prod.fst).Sorted (· < ·) :=
  btreeFoldl_sorted l [] (by simp)

/-- C10 The list-backends operation always emits the registered backend
names in ascending lexicographic order (the registry is an ordered map
keyed by name), both in newline-separated text mode and in JSON mode. -/
theorem list_bins_sorted {β : Type} (l : List (String × β)) :
    ((btreeFromList l).map Prod.fst).Sorted (· < ·) ∧
    list_bins (some true) (btreeFromList l) =
      jsonArrayOfNames ((btreeFromList l).map Prod.fst) ∧
    list_bins none (btreeFromList l) =
      String.intercalate "\n" ((btreeFromList l).map Prod.fst) ∧
    list_bins (some false) (btreeFromList l) =
      String.intercalate "\n" ((btreeFromList l).map Prod.fst) :=
  ⟨btreeFromList_sorted l, rfl, rfl, rfl⟩

/-! ## Backend abstraction and download dispatch (main.rs lines 544-563) -/

/-- The `BinFeature` capability enum of the backend contract. -/
inductive BinFeature where
  | Private
  | Public
  | Authed
  | Anonymous
  | SingleNaming
deriving DecidableEq, Repr

/-- The slice of the `Bin` trait contract that the dispatcher consumes:
identity, the two routing hostnames, the advertised feature set and the
two ID-extraction functions. The trait's networked operations (upload,
download, URL creation) stay abstract behind continuations. -/
structure Bin where
  name : String
  raw_host : String
  html_host : String
  features : List BinFeature
  id_from_raw_url : String → Option String
  id_from_html_url : String → Option String

/-- The parsed-URL values the dispatcher reads: `Url::host_str` and
`Url::as_str`. -/
structure Url where
  host_str : Option String
  as_str : String
deriving DecidableEq

/-- The host-routing and ID-extraction part of `Bins::download` (main.rs
lines 548-563): a missing host is an error; the first backend whose
`raw_host` equals the host wins, else the first whose `html_host` equals
it; no match is the unknown-host error; the matching kind selects the
ID-extraction function, and a failed extraction is an error. -/
def downloadDispatch (bins : List Bin) (url : Url) : Except String (Bool × Bin × String) :=
  match url.host_str with
  | none => .error "url was missing a host"
  | some host =>
    match bins.find? (fun b => b.raw_host == host) with
    | some b =>
      match b.id_from_raw_url url.as_str with
      | some id => .ok (false, b, id)
      | none => .error "could not parse ID from URL"
    | none =>
      match bins.find? (fun b => b.html_host == host) with
      | some b =>
        match b.id_from_html_url url.as_str with
        | some id => .ok (true, b, id)
        | none => .error "could not parse ID from URL"
      | none => .error ("no bin uses the hostname " ++ host)

/-- C1 For every download URL with a host, the orchestrator selects a
backend whose `raw_host` equals the host; only when no backend's
`raw_host` matches does it select one whose `html_host` matches; when
neither matches, the download fails with the unknown-host error; and the
ID-extraction function used (`id_from_raw_url` vs `id_from_html_url`) is
the one belonging to the host kind that matched. -/
theorem download_dispatch_host_routing (bins : List Bin) (url : Url) (host : String)
    (hhost : url.host_str = some host) :
    ((∃ b ∈ bins, b.raw_host = host) →
      ∃ b ∈ bins, b.raw_host = host ∧
        downloadDispatch bins url =
          (match b.id_from_raw_url url.as_str with
           | some id => .ok (false, b, id)
           | none => .error "could not parse ID from URL")) ∧
    ((∀ b ∈ bins, b.raw_host ≠ host) → (∃ b ∈ bins, b.html_host = host) →
      ∃ b ∈ bins, b.html_host = host ∧
        downloadDispatch bins url =
          (match b.id_from_html_url url.as_str with
           | some id => .ok (true, b, id)
           | none => .error "could not parse ID from URL")) ∧
    ((∀ b ∈ bins, b.raw_host ≠ host ∧ b.html_host ≠ host) →
      downloadDispatch bins url = .error ("no bin uses the hostname " ++ host)) := by
  refine ⟨?_, ?_, ?_⟩
  · intro hex
    have hfind : (bins.find? (fun b => b.raw_host == host)).isSome := by
      rw [List.find?_isSome]
      obtain ⟨b, hb, hbr⟩ := hex
      exact ⟨b, hb, by simp [hbr]⟩
    obtain ⟨b, hb⟩ := Option.isSome_iff_exists.mp hfind
    refine ⟨b, List.mem_of_find?_eq_some hb, by simpa using List.find?_some hb, ?_⟩
    simp only [downloadDispatch, hhost, hb]
  · intro hnone hex
    have hf1 : bins.find? (fun b => b.raw_host == host) = none := by
      rw [List.find?_eq_none]
      intro b hb
      simp [hnone b hb]
    have hfind : (bins.find? (fun b => b.html_host == host)).isSome := by
      rw [List.find?_isSome]
      obtain ⟨b, hb, hbr⟩ := hex
      exact ⟨b, hb, by simp [hbr]⟩
    obtain ⟨b, hb⟩ := Option.isSome_iff_exists.mp hfind
    refine ⟨b, List.mem_of_find?_eq_some hb, by simpa using List.find?_some hb, ?_⟩
    simp only [downloadDispatch, hhost, hf1, hb]
  · intro hno
    have hf1 : bins.find? (fun b => b.raw_host == host) = none := by
      rw [List.find?_eq_none]
      intro b hb
      simp [(hno b hb).1]
    have hf2 : bins.find? (fun b => b.html_host == host) = none := by
      rw [List.find?_eq_none]
      intro b hb
      simp [(hno b hb).2]
    simp only [downloadDispatch, hhost, hf1, hf2]

/-- A concrete backend used by witnesses. -/
def demoBin : Bin where
  name := "demo"
  raw_host := "raw.example"
  html_host := "html.example"
  features := [BinFeature.Public]
  id_from_raw_url := fun _ => some "demo-id"
  id_from_html_url := fun _ => some "demo-id"

/-- A concrete raw-host URL used by witnesses. -/
def demoUrl : Url where
  host_str := some "raw.example"
  as_str := "https://raw.example/demo-id"

/-- C1 witness: a URL whose host equals `demoBin`'s raw host routes to
`demoBin` with the raw ID extractor. -/
theorem download_dispatch_host_routing_witness :
    downloadDispatch [demoBin] demoUrl = .ok (false, demoBin, "demo-id") := by
  obtain ⟨b, hb, hraw, heq⟩ :=
    (download_dispatch_host_routing [demoBin] demoUrl "raw.example" rfl).1
      ⟨demoBin, List.mem_singleton.mpr rfl, rfl⟩
  rw [List.mem_singleton] at hb
  subst hb
  exact heq

/-! ## Mode decision and range exclusivity (main.rs lines 308-324, 544-547) -/

/-- The fall-through of `Bins::main` once no URL was recognised (main.rs
lines 320-323): uploading with a parsed range selector is a usage error;
otherwise upload runs on the raw inputs. -/
def mainUploadPhase {ρ : Type} (rangeOpt : Option ρ) (rawInputs : Option (List String))
    (uploadFn : Option (List String) → Except String String) : Except String String :=
  if rangeOpt.isSome then .error "cannot upload with --range"
  else uploadFn rawInputs

/-- `Bins::main` (main.rs lines 308-324): a list-bins request
short-circuits; a first positional input parsing as a URL enters download
mode with the remaining inputs as name filters; everything else is upload
mode. -/
def mainFlow {ρ : Type} (listBinsFlag : Bool) (rawInputs : Option (List String))
    (parseUrl : String → Option Url) (rangeOpt : Option ρ)
    (listBinsFn : Except String String)
    (downloadFn : Url → Option (List String) → Except String String)
    (uploadFn : Option (List String) → Except String String) : Except String String :=
  if listBinsFlag then listBinsFn
  else
    match rawInputs with
    | some (i0 :: rest) =>
      match parseUrl i0 with
      | some u => downloadFn u (if rest.isEmpty then none else some rest)
      | none => mainUploadPhase rangeOpt (some (i0 :: rest)) uploadFn
    | some [] => mainUploadPhase rangeOpt (some []) uploadFn
    | none => mainUploadPhase rangeOpt none uploadFn

/-- `Bins::download` (main.rs lines 544-563) up to ID extraction: the
names-with-range usage check runs first, then the host dispatch; the work
after ID extraction (URL output, list-all, fetching, materialization) is
abstracted by the continuation `cont`. -/
def downloadModel {ρ : Type} (rangeOpt : Option ρ) (bins : List Bin) (url : Url)
    (names : Option (List String))
    (cont : Bool → Bin → String → Except String String) : Except String String :=
  if names.isSome && rangeOpt.isSome then .error "cannot specify file names with --range"
  else
    match downloadDispatch bins url with
    | .error e => .error e
    | .ok (is_html, b, id) => cont is_html b id

/-- C7 A range selector is download-only and exclusive with name filters:
entering upload mode with a parsed range selector fails with a usage error
before any upload work runs (the result is the error for every upload
behaviour), and a download invocation carrying both a range selector and
explicit file-name filters fails with a usage error before any download
work (for every backend list, URL and continuation). -/
theorem range_exclusivity {ρ : Type} (r : ρ) :
    (∀ (rawInputs : Option (List String)) (parseUrl : String → Option Url)
       (listBinsFn : Except String String)
       (downloadFn : Url → Option (List String) → Except String String)
       (uploadFn : Option (List String) → Except String String),
      (rawInputs = none ∨ rawInputs = some [] ∨
        (∃ i0 rest, rawInputs = some (i0 :: rest) ∧ parseUrl i0 = none)) →
      mainFlow false rawInputs parseUrl (some r) listBinsFn downloadFn uploadFn =
        .error "cannot upload with --range") ∧
    (∀ (bins : List Bin) (url : Url) (ns : List String)
       (cont : Bool → Bin → String → Except String String),
      downloadModel (some r) bins url (some ns) cont =
        .error "cannot specify file names with --range") ∧
    (∀ (i0 r1 : String) (rs : List String) (parseUrl : String → Option Url)
       (u : Url) (bins : List Bin) (listBinsFn : Except String String)
       (uploadFn : Option (List String) → Except String String)
       (cont : Bool → Bin → String → Except String String),
      parseUrl i0 = some u →
      mainFlow false (some (i0 :: r1 :: rs)) parseUrl (some r) listBinsFn
        (fun v ns => downloadModel (some r) bins v ns cont) uploadFn =
        .error "cannot specify file names with --range") := by
  refine ⟨?_, ?_, ?_⟩
  · rintro rawInputs parseUrl lb dl up (rfl | rfl | ⟨i0, rest, rfl, hp⟩)
    · rfl
    · rfl
    · simp [mainFlow, hp, mainUploadPhase]
  · intro bins url ns cont
    rfl
  · intro i0 r1 rs parseUrl u bins lb up cont hp
    simp [mainFlow, hp, downloadModel]

/-- C7 witness: upload mode (no inputs at all) with a range selector is
the range usage error. -/
theorem range_exclusivity_witness :
    mainFlow false none (fun _ => none) (some 0) (.ok "") (fun _ _ => .ok "")
      (fun _ => .ok "") = .error "cannot upload with --range" :=
  (range_exclusivity 0).1 none (fun _ => none) (.ok "") (fun _ _ => .ok "")
    (fun _ => .ok "") (Or.inl rfl)

/-! ## Feature negotiation (`Bins::check_features`, main.rs lines 398-420) -/

/-- The safety policy flags read from configuration. -/
structure SafetyConfig where
  warn_on_unsupported : Option Bool
  cancel_on_unsupported : Option Bool
deriving DecidableEq

/-- Display name of a feature (the `Display` impl lives in the library
crate; only the shape of the message matters here). -/
def featureName : BinFeature → String
  | .Private => "private"
  | .Public => "public"
  | .Authed => "authed"
  | .Anonymous => "anonymous"
  | .SingleNaming => "single-naming"

/-- Warning text of main.rs line 405. -/
def warnUnsupportedMsg (binName : String) (f : BinFeature) : String :=
  binName ++ " does not support " ++ featureName f ++ " pastes"

/-- Error text of main.rs line 413. -/
def cancelMsg (binName : String) (f : BinFeature) : String :=
  "bins stopped because " ++ binName ++ " does not support " ++ featureName f ++ " pastes"

/-- Warning text of main.rs line 410. -/
def forcingMsg : String := "forcing upload with unsupported features"

/-- A feature entry that was requested true but is absent from the chosen
backend's advertised set (the condition of main.rs lines 402-403). -/
def requestedUnsupported (binFeatures : List BinFeature) (p : BinFeature × Option Bool) : Bool :=
  p.2 == some true && !(binFeatures.contains p.1)

/-- `Bins::check_features` (main.rs lines 398-420) over the feature/status
entries in some iteration order (the source iterates a `HashMap`, whose
order is unspecified, so the theorems quantify over every order). The
first component collects the emitted warnings. -/
def check_features (binName : String) (binFeatures : List BinFeature)
    (safety : SafetyConfig) (force : Option Bool) :
    List (BinFeature × Option Bool) → List String × Except String Unit
  | [] => ([], .ok ())
  | (feature, status) :: rest =>
    if status == some true && !(binFeatures.contains feature) then
      let warns := if safety.warn_on_unsupported == some true
        then [warnUnsupportedMsg binName feature] else []
      if safety.cancel_on_unsupported == some true then
        match force with
        | some true => (warns ++ [forcingMsg], .ok ())
        | _ => (warns, .error (cancelMsg binName feature))
      else
        let r := check_features binName binFeatures safety force rest
        (warns ++ r.1, r.2)
    else check_features binName binFeatures safety force rest

/-- An upload file: a name and its text content. -/
structure UploadFile where
  name : String
  content : String
deriving DecidableEq

/-- The relevant command-line options (`CommandLineOptions`); `private_`
stands for the source's `private` field, a Rust keyword escape. -/
structure CommandLineOptions where
  private_ : Option Bool
  authed : Option Bool
  force : Option Bool
  name : Option String
deriving DecidableEq

/-- `Bins::cli_features` (main.rs lines 375-383) as an entry list:
Private/Public and Authed/Anonymous are complementary, SingleNaming is
requested exactly when a name override is. The `HashMap` the source builds
iterates these entries in an unspecified order. -/
def cli_features (opts : CommandLineOptions) : List (BinFeature × Option Bool) :=
  [(BinFeature.Private, opts.private_),
   (BinFeature.Public, opts.private_.map (fun x => !x)),
   (BinFeature.Authed, opts.authed),
   (BinFeature.Anonymous, opts.authed.map (fun x => !x)),
   (BinFeature.SingleNaming, opts.name.map (fun _ => true))]

/-- `Bins::upload` (main.rs lines 507-519) with the input gathering and the
backend upload abstracted: the feature check runs first, then inputs are
gathered, then the backend uploads, and the resulting URLs are joined. -/
def uploadModel (binName : String) (binFeatures : List BinFeature) (safety : SafetyConfig)
    (force : Option Bool) (features : List (BinFeature × Option Bool))
    (gather : List String × Except String (List UploadFile))
    (binUpload : List UploadFile → Except String (List String)) :
    List String × Except String String :=
  match check_features binName binFeatures safety force features with
  | (ws1, .error e) => (ws1, .error e)
  | (ws1, .ok _) =>
    match gather with
    | (ws2, .error e) => (ws1 ++ ws2, .error e)
    | (ws2, .ok files) =>
      match binUpload files with
      | .error e => (ws1 ++ ws2, .error e)
      | .ok urls => (ws1 ++ ws2, .ok (String.intercalate "\n" urls))

/-- With neither policy flag set, the check ignores mismatches. -/
theorem check_features_no_policy (binName : String) (binFeatures : List BinFeature)
    (safety : SafetyConfig) (force : Option Bool)
    (hw : safety.warn_on_unsupported ≠ some true)
    (hc : safety.cancel_on_unsupported ≠ some true) :
    ∀ fs, check_features binName binFeatures safety force fs = ([], .ok ()) := by
  intro fs
  induction fs with
  | nil => rfl
  | cons q rest ih =>
    obtain ⟨feature, status⟩ := q
    by_cases hm : status = some true ∧ feature ∉ binFeatures
    · simp [check_features, hm, hw, hc, ih]
    · simp [check_features, hm, ih]

/-- With only the warn flag set, every mismatch warns and the check
passes. -/
theorem check_features_warn_only (binName : String) (binFeatures : List BinFeature)
    (safety : SafetyConfig) (force : Option Bool)
    (hw : safety.warn_on_unsupported = some true)
    (hc : safety.cancel_on_unsupported ≠ some true) :
    ∀ fs, check_features binName binFeatures safety force fs =
      ((fs.filter (requestedUnsupported binFeatures)).map
        (fun p => warnUnsupportedMsg binName p.1), .ok ()) := by
  intro fs
  induction fs with
  | nil => rfl
  | cons q rest ih =>
    obtain ⟨feature, status⟩ := q
    by_cases hm : status = some true ∧ feature ∉ binFeatures
    · simp [check_features, hm, hw, hc, ih, List.filter_cons, requestedUnsupported]
    · simp [check_features, hm, ih, List.filter_cons, requestedUnsupported]

/-- With the cancel flag set and no force, the first mismatch aborts. -/
theorem check_features_cancel_err (binName : String) (binFeatures : List BinFeature)
    (safety : SafetyConfig) (force : Option Bool)
    (hc : safety.cancel_on_unsupported = some true)
    (hf : force ≠ some true) :
    ∀ fs p l, fs.filter (requestedUnsupported binFeatures) = p :: l →
    (check_features binName binFeatures safety force fs).2 =
      .error (cancelMsg binName p.1) := by
  intro fs
  induction fs with
  | nil => intro p l h; simp at h
  | cons q rest ih =>
    obtain ⟨feature, status⟩ := q
    intro p l h
    rw [List.filter_cons] at h
    by_cases hm : requestedUnsupported binFeatures (feature, status) = true
    · rw [if_pos hm] at h
      have hp : p = (feature, status) := by
        simp only [List.cons.injEq] at h
        exact h.1.symm
      subst hp
      have hm2 : status = some true ∧ feature ∉ binFeatures := by
        simpa [requestedUnsupported] using hm
      cases force with
      | none => simp [check_features, hm2, hc]
      | some b =>
        cases b with
        | false => simp [check_features, hm2, hc]
        | true => exact absurd rfl hf
    · rw [if_neg hm] at h
      have hrec := ih p l h
      have hm2 : ¬(status = some true ∧ feature ∉ binFeatures) := by
        simpa [requestedUnsupported] using hm
      simpa [check_features, hm2] using hrec

/-- With the cancel flag set and force supplied, a mismatch is downgraded
to the forcing warning and the check passes. -/
theorem check_features_cancel_force (binName : String) (binFeatures : List BinFeature)
    (safety : SafetyConfig)
    (hc : safety.cancel_on_unsupported = some true) :
    ∀ fs, fs.filter (requestedUnsupported binFeatures) ≠ [] →
    (check_features binName binFeatures safety (some true) fs).2 = .ok () ∧
    forcingMsg ∈ (check_features binName binFeatures safety (some true) fs).1 := by
  intro fs
  induction fs with
  | nil => intro h; simp at h
  | cons q rest ih =>
    obtain ⟨feature, status⟩ := q
    intro h
    by_cases hm : requestedUnsupported binFeatures (feature, status) = true
    · have hm2 : status = some true ∧ feature ∉ binFeatures := by
        simpa [requestedUnsupported] using hm
      constructor
      · simp [check_features, hm2, hc]
      · simp [check_features, hm2, hc]
    · rw [List.filter_cons, if_neg hm] at h
      have hrec := ih h
      have hm2 : ¬(status = some true ∧ feature ∉ binFeatures) := by
        simpa [requestedUnsupported] using hm
      simpa [check_features, hm2] using hrec

/-- Without any requested-but-unsupported feature, the check is a silent
pass. -/
theorem check_features_no_mismatch (binName : String) (binFeatures : List BinFeature)
    (safety : SafetyConfig) (force : Option Bool) :
    ∀ fs, fs.filter (requestedUnsupported binFeatures) = [] →
    check_features binName binFeatures safety force fs = ([], .ok ()) := by
  intro fs
  induction fs with
  | nil => intro h; rfl
  | cons q rest ih =>
    obtain ⟨feature, status⟩ := q
    intro h
    rw [List.filter_cons] at h
    by_cases hm : requestedUnsupported binFeatures (feature, status) = true
    · rw [if_pos hm] at h
      simp at h
    · rw [if_neg hm] at h
      have hm2 : ¬(status = some true ∧ feature ∉ binFeatures) := by
        simpa [requestedUnsupported] using hm
      simp [check_features, hm2, ih h]

/-- C2 For every requested-true feature absent from the chosen backend's
advertised set: with the warn flag (and no cancel flag) a warning is
emitted and the check passes; with the cancel flag the check errors unless
force was supplied, in which case it passes with the forcing warning; with
neither flag the mismatch is ignored; and the check runs before any upload
file is gathered or uploaded — a failing check yields its error for every
gathering and uploading behaviour. -/
theorem feature_check_policy (binName : String) (binFeatures : List BinFeature)
    (safety : SafetyConfig) (force : Option Bool)
    (fs : List (BinFeature × Option Bool)) :
    (safety.warn_on_unsupported ≠ some true → safety.cancel_on_unsupported ≠ some true →
      check_features binName binFeatures safety force fs = ([], .ok ())) ∧
    (safety.warn_on_unsupported = some true → safety.cancel_on_unsupported ≠ some true →
      check_features binName binFeatures safety force fs =
        ((fs.filter (requestedUnsupported binFeatures)).map
          (fun p => warnUnsupportedMsg binName p.1), .ok ())) ∧
    (safety.cancel_on_unsupported = some true → force ≠ some true →
      ∀ p l, fs.filter (requestedUnsupported binFeatures) = p :: l →
      (check_features binName binFeatures safety force fs).2 =
        .error (cancelMsg binName p.1)) ∧
    (safety.cancel_on_unsupported = some true → force = some true →
      fs.filter (requestedUnsupported binFeatures) ≠ [] →
      (check_features binName binFeatures safety force fs).2 = .ok () ∧
      forcingMsg ∈ (check_features binName binFeatures safety force fs).1) ∧
    (fs.filter (requestedUnsupported binFeatures) = [] →
      check_features binName binFeatures safety force fs = ([], .ok ())) ∧
    (∀ ws e, check_features binName binFeatures safety force fs = (ws, .error e) →
      ∀ (gather : List String × Except String (List UploadFile))
        (binUpload : List UploadFile → Except String (List String)),
      uploadModel binName binFeatures safety force fs gather binUpload = (ws, .error e)) := by
  refine ⟨?_, ?_, ?_, ?_, ?_, ?_⟩
  · intro hw hc
    exact check_features_no_policy binName binFeatures safety force hw hc fs
  · intro hw hc
    exact check_features_warn_only binName binFeatures safety force hw hc fs
  · intro hc hf
    exact check_features_cancel_err binName binFeatures safety force hc hf fs
  · intro hc hf
    subst hf
    exact check_features_cancel_force binName binFeatures safety hc fs
  · exact check_features_no_mismatch binName binFeatures safety force fs
  · intro ws e h gather binUpload
    simp [uploadModel, h]

/-- C2 witness: requesting Private against a backend advertising only
Public, with cancel_on_unsupported set and no force, fails with the
unsupported-feature error. -/
theorem feature_check_policy_witness :
    (check_features "demo" [BinFeature.Public] ⟨none, some true⟩ none
      [(BinFeature.Private, some true)]).2 =
      .error (cancelMsg "demo" BinFeature.Private) :=
  (feature_check_policy "demo" [BinFeature.Public] ⟨none, some true⟩ none
    [(BinFeature.Private, some true)]).2.2.1 rfl (by decide)
    (BinFeature.Private, some true) [] (by decide)

/-! ## Input gathering and the size-limit check (main.rs lines 422-487) -/

/-- The file-system effects of the upload path, abstracted over a handle
type `H`: `File::open`, `Path::file_name` (as UTF-8), `metadata().len()`
and `read_to_string`. -/
structure FileSystem (H : Type) where
  openFile : String → Except String H
  fileName : String → Option String
  metadataLen : H → Except String Nat
  readToString : H → Except String String

/-- The first pass of `get_upload_files` (main.rs lines 448-457): open
each input and pair it with its path's name component; an open failure
propagates, and a missing or non-UTF-8 name component stops the traversal
with `none` (reported as the invalid-name error by the caller). -/
def gatherHandles {H : Type} (fs : FileSystem H) :
    List String → Except String (Option (List (String × H)))
  | [] => .ok (some [])
  | f :: rest =>
    match fs.openFile f with
    | .error e => .error e
    | .ok h =>
      match fs.fileName f with
      | none => .ok none
      | some nm =>
        match gatherHandles fs rest with
        | .error e => .error e
        | .ok none => .ok none
        | .ok (some t) => .ok (some ((nm, h) :: t))

/-- Warning text of main.rs line 433. -/
def overLimitWarn (name : String) (size limit : Nat) : String :=
  name ++ " is " ++ toString size ++ " bytes, which is over the " ++
    toString limit ++ " byte limit"

/-- Error text of main.rs lines 435-440, with the source's pluralization. -/
def overLimitErr (name : String) (size limit : Nat) : String :=
  name ++ " is " ++ toString size ++ " byte" ++ (if size = 1 then "" else "s") ++
    ", which is over the size limit of " ++ toString limit ++ " byte" ++
    (if limit = 1 then "" else "s")

/-- The per-file loop of `Bins::check_limit` (main.rs lines 428-443): each
file's metadata length is compared with the limit; an oversize file warns
and continues under force, and aborts otherwise. -/
def checkLimitGo {H : Type} (fs : FileSystem H) (limit : Nat) (force : Option Bool) :
    List (String × H) → List String × Except String Unit
  | [] => ([], .ok ())
  | (name, h) :: rest =>
    match fs.metadataLen h with
    | .error e => ([], .error e)
    | .ok size =>
      if limit < size then
        match force with
        | some true =>
          let r := checkLimitGo fs limit force rest
          (overLimitWarn name size limit :: r.1, r.2)
        | _ => ([], .error (overLimitErr name size limit))
      else checkLimitGo fs limit force rest

/-- `Bins::check_limit` (main.rs lines 422-445): resolve the configured
limit first; an unconfigured limit means no check at all. -/
def check_limit {H : Type} (fs : FileSystem H) (cfgLimit : Option String)
    (force : Option Bool) (files : List (String × H)) : List String × Except String Unit :=
  match file_size_limit cfgLimit with
  | .error e => ([], .error e)
  | .ok none => ([], .ok ())
  | .ok (some limit) => checkLimitGo fs limit force files

/-- The content-reading pass of `get_upload_files` (main.rs lines
459-464). -/
def readContents {H : Type} (fs : FileSystem H) :
    List (String × H) → Except String (List (String × String))
  | [] => .ok []
  | (n, h) :: rest =>
    match fs.readToString h with
    | .error e => .error e
    | .ok c =>
      match readContents fs rest with
      | .error e => .error e
      | .ok t => .ok ((n, c) :: t)

/-- `Bins::get_upload_files` (main.rs lines 447-466): open and name the
inputs, check the size limit, then read the contents. -/
def get_upload_files {H : Type} (fs : FileSystem H) (cfgLimit : Option String)
    (force : Option Bool) (inputs : List String) :
    List String × Except String (List UploadFile) :=
  match gatherHandles fs inputs with
  | .error e => ([], .error e)
  | .ok none => ([], .error "invalid utf-8 file names")
  | .ok (some files) =>
    match check_limit fs cfgLimit force files with
    | (ws, .error e) => (ws, .error e)
    | (ws, .ok _) =>
      match readContents fs files with
      | .error e => (ws, .error e)
      | .ok contents => (ws, .ok (contents.map (fun p => UploadFile.mk p.1 p.2)))

/-- `get_stdin` (main.rs lines 644-649): standard input read into an
upload file named "stdin". -/
def get_stdin (stdin : Except String String) : Except String UploadFile :=
  match stdin with
  | .error e => .error e
  | .ok c => .ok (UploadFile.mk "stdin" c)

/-- The name-override step of `Bins::inputs` (main.rs lines 479-485): with
exactly one gathered file, the override replaces its name; with any other
count a requested override is a fatal error; earlier errors pass
through. -/
def applyNameOverride (nameOpt : Option String)
    (p : List String × Except String (List UploadFile)) :
    List String × Except String (List UploadFile) :=
  match p with
  | (ws, .error e) => (ws, .error e)
  | (ws, .ok procd) =>
    match nameOpt with
    | none => (ws, .ok procd)
    | some nm =>
      match procd with
      | [f] => (ws, .ok [{ f with name := nm }])
      | _ => (ws, .error "cannot use --name with multiple upload files")

/-- `Bins::inputs` (main.rs lines 468-487): explicit file paths win, else
a literal message, else standard input; then the name override applies. -/
def inputsFn {H : Type} (fs : FileSystem H) (cfgLimit : Option String)
    (opts : CommandLineOptions) (message : Option String)
    (stdin : Except String String) (rawInputs : Option (List String)) :
    List String × Except String (List UploadFile) :=
  applyNameOverride opts.name
    (match rawInputs with
     | some v => get_upload_files fs cfgLimit opts.force v
     | none =>
       match message with
       | some m => ([], .ok [UploadFile.mk "message" m])
       | none =>
         match get_stdin stdin with
         | .error e => ([], .error e)
         | .ok f => ([], .ok [f]))

/-- C5 Exactly one input source feeds an upload, with priority explicit
file paths, then the literal message argument, then standard input (the
unused sources never influence the result); a requested name override is
applied exactly when the gathered list has exactly one element, and a name
override together with more than one upload file is a fatal error. -/
theorem upload_input_priority {H : Type} (fs : FileSystem H) (cfgLimit : Option String)
    (opts : CommandLineOptions) :
    (∀ (v : List String) (m1 m2 : Option String) (st1 st2 : Except String String),
      inputsFn fs cfgLimit opts m1 st1 (some v) = inputsFn fs cfgLimit opts m2 st2 (some v)) ∧
    (∀ (m : String) (st1 st2 : Except String String),
      inputsFn fs cfgLimit opts (some m) st1 none =
        inputsFn fs cfgLimit opts (some m) st2 none) ∧
    (opts.name = none → ∀ (m : String) (st : Except String String),
      inputsFn fs cfgLimit opts (some m) st none = ([], .ok [UploadFile.mk "message" m])) ∧
    (opts.name = none → ∀ c : String,
      inputsFn fs cfgLimit opts none (.ok c) none = ([], .ok [UploadFile.mk "stdin" c])) ∧
    (∀ (nm : String) (v ws : List String) (f : UploadFile),
      opts.name = some nm →
      get_upload_files fs cfgLimit opts.force v = (ws, .ok [f]) →
      ∀ (m : Option String) (st : Except String String),
        inputsFn fs cfgLimit opts m st (some v) = (ws, .ok [UploadFile.mk nm f.content])) ∧
    (∀ (nm : String) (v ws : List String) (procd : List UploadFile),
      opts.name = some nm →
      get_upload_files fs cfgLimit opts.force v = (ws, .ok procd) → 1 < procd.length →
      ∀ (m : Option String) (st : Except String String),
        inputsFn fs cfgLimit opts m st (some v) =
          (ws, .error "cannot use --name with multiple upload files")) := by
  refine ⟨fun v m1 m2 st1 st2 => rfl, fun m st1 st2 => rfl, ?_, ?_, ?_, ?_⟩
  · intro h m st
    simp [inputsFn, applyNameOverride, h]
  · intro h c
    simp [inputsFn, applyNameOverride, get_stdin, h]
  · intro nm v ws f hnm hg m st
    simp [inputsFn, hg, applyNameOverride, hnm]
  · intro nm v ws procd hnm hg hlen m st
    obtain _ | ⟨f1, procd⟩ := procd
    · simp at hlen
    obtain _ | ⟨f2, procd⟩ := procd
    · simp at hlen
    simp [inputsFn, hg, applyNameOverride, hnm]

/-- A file system that always fails, for witnesses. -/
def trivFs : FileSystem Unit where
  openFile := fun _ => .error "no file system"
  fileName := fun _ => none
  metadataLen := fun _ => .error "no metadata"
  readToString := fun _ => .error "no content"

/-- C5 witness: with no explicit files, the literal message becomes the
single upload file, whatever standard input holds. -/
theorem upload_input_priority_witness :
    inputsFn trivFs none ⟨none, none, none, none⟩ (some "hello") (.ok "ignored") none =
      ([], .ok [UploadFile.mk "message" "hello"]) :=
  (upload_input_priority trivFs none ⟨none, none, none, none⟩).2.2.1 rfl "hello" (.ok "ignored")

/-- `gatherHandles` never consults the content-reading operation. -/
theorem gatherHandles_read_irrel {H : Type} (fs : FileSystem H)
    (r2 : H → Except String String) :
    ∀ inputs, gatherHandles { fs with readToString := r2 } inputs = gatherHandles fs inputs := by
  intro inputs
  induction inputs with
  | nil => rfl
  | cons f rest ih => simp [gatherHandles, ih]

/-- `checkLimitGo` never consults the content-reading operation. -/
theorem checkLimitGo_read_irrel {H : Type} (fs : FileSystem H)
    (r2 : H → Except String String) (limit : Nat) (force : Option Bool) :
    ∀ files, checkLimitGo { fs with readToString := r2 } limit force files =
      checkLimitGo fs limit force files := by
  intro files
  induction files with
  | nil => rfl
  | cons q rest ih =>
    obtain ⟨name, h⟩ := q
    simp [checkLimitGo, ih]

/-- `check_limit` never consults the content-reading operation. -/
theorem check_limit_read_irrel {H : Type} (fs : FileSystem H)
    (r2 : H → Except String String) (cfgLimit : Option String) (force : Option Bool)
    (files : List (String × H)) :
    check_limit { fs with readToString := r2 } cfgLimit force files =
      check_limit fs cfgLimit force files := by
  unfold check_limit
  cases file_size_limit cfgLimit with
  | error e => rfl
  | ok o =>
    cases o with
    | none => rfl
    | some limit => exact checkLimitGo_read_irrel fs r2 limit force files

/-- Under force, the limit loop passes whenever every metadata read
succeeds. -/
theorem checkLimitGo_force_ok {H : Type} (fs : FileSystem H) (limit : Nat) :
    ∀ files : List (String × H), (∀ p ∈ files, ∃ s, fs.metadataLen p.2 = .ok s) →
    (checkLimitGo fs limit (some true) files).2 = .ok () := by
  intro files
  induction files with
  | nil => intro _; rfl
  | cons q rest ih =>
    obtain ⟨name, h⟩ := q
    intro hmeta
    obtain ⟨s, hs⟩ := hmeta (name, h) (List.mem_cons_self _ _)
    have hrest := ih (fun p hp => hmeta p (List.mem_cons_of_mem _ hp))
    simp only [checkLimitGo, hs]
    by_cases hlim : limit < s
    · simp [hlim, hrest]
    · simp [hlim, hrest]

/-- Without force, the limit loop passes exactly when every file's
metadata length is within the limit. -/
theorem checkLimitGo_noforce {H : Type} (fs : FileSystem H) (limit : Nat)
    (force : Option Bool) (msize : H → Nat) (hf : force ≠ some true) :
    ∀ files : List (String × H), (∀ p ∈ files, fs.metadataLen p.2 = .ok (msize p.2)) →
    ((checkLimitGo fs limit force files).2 = .ok () ↔ ∀ p ∈ files, msize p.2 ≤ limit) := by
  intro files
  induction files with
  | nil => intro _; simp [checkLimitGo]
  | cons q rest ih =>
    obtain ⟨name, h⟩ := q
    intro hmeta
    have hs := hmeta (name, h) (List.mem_cons_self _ _)
    have hrest := ih (fun p hp => hmeta p (List.mem_cons_of_mem _ hp))
    simp only [checkLimitGo, hs]
    by_cases hlim : limit < msize h
    · rcases force with _ | b
      · rw [if_pos hlim]
        exact iff_of_false (by simp)
          (fun hall => absurd (hall (name, h) (List.mem_cons_self _ _)) (not_le.mpr hlim))
      · cases b
        · rw [if_pos hlim]
          exact iff_of_false (by simp)
            (fun hall => absurd (hall (name, h) (List.mem_cons_self _ _)) (not_le.mpr hlim))
        · exact absurd rfl hf
    · rw [if_neg hlim]
      simp only [List.forall_mem_cons]
      rw [hrest]
      simp [not_lt.mp hlim]

/-- C8 When a size limit is configured, every explicit input file is
checked against it using file metadata before any file content is read: an
oversize file is a fatal error without force and only a warning (with the
upload proceeding) under force; with no configured limit no check is
performed. A failing check makes `get_upload_files` return the check's
error unchanged under every content-reading behaviour. -/
theorem size_limit_enforced (H : Type) (fs : FileSystem H) (cfgLimit : Option String)
    (force : Option Bool) (files : List (String × H)) (L : Nat) (msize : H → Nat) :
    (check_limit fs none force files = ([], .ok ())) ∧
    (file_size_limit cfgLimit = .ok (some L) →
      (∀ p ∈ files, fs.metadataLen p.2 = .ok (msize p.2)) →
      ((force = some true → (check_limit fs cfgLimit force files).2 = .ok ()) ∧
       (force ≠ some true →
         ((check_limit fs cfgLimit force files).2 = .ok () ↔
           ∀ p ∈ files, msize p.2 ≤ L)))) ∧
    (∀ (inputs : List String) (gfiles : List (String × H)) (ws : List String) (e : String)
       (r2 : H → Except String String),
      gatherHandles fs inputs = .ok (some gfiles) →
      check_limit fs cfgLimit force gfiles = (ws, .error e) →
      get_upload_files fs cfgLimit force inputs = (ws, .error e) ∧
      get_upload_files { fs with readToString := r2 } cfgLimit force inputs =
        (ws, .error e)) := by
  refine ⟨rfl, ?_, ?_⟩
  · intro hfsl hmeta
    constructor
    · intro hforce
      subst hforce
      unfold check_limit
      rw [hfsl]
      exact checkLimitGo_force_ok fs L files (fun p hp => ⟨msize p.2, hmeta p hp⟩)
    · intro hf
      unfold check_limit
      rw [hfsl]
      exact checkLimitGo_noforce fs L force msize hf files hmeta
  · intro inputs gfiles ws e r2 hg hcl
    constructor
    · simp [get_upload_files, hg, hcl]
    · simp [get_upload_files, gatherHandles_read_irrel fs r2 inputs,
        check_limit_read_irrel fs r2 cfgLimit force gfiles, hg, hcl]

/-- A concrete file system over `Nat` handles whose metadata length is the
handle itself, for witnesses. -/
def demoFs : FileSystem Nat where
  openFile := fun _ => .ok 0
  fileName := fun s => some s
  metadataLen := fun h => .ok h
  readToString := fun _ => .ok ""

/-- C8 witness: an 11-byte file against a configured 10-byte limit without
force does not pass the check. -/
theorem size_limit_enforced_witness :
    (check_limit demoFs (some "10b") none [("big", (11 : Nat))]).2 ≠ .ok () := fun hok =>
  absurd
    ((((size_limit_enforced Nat demoFs (some "10b") none [("big", (11 : Nat))] 10 id).2.1
      (by decide)
      (by intro p hp; rw [List.mem_singleton] at hp; subst hp; rfl)).2
      (by decide)).mp hok)
    (by decide)

end Bins
